import Mathlib

/-!
# RedactionTool front end: selection state, submission client, admin guard

A shallow embedding of the event handlers of the React front end
(`App.jsx`, `components/RedactionTool.js`, `App.js`,
`components/admin/ManageUsers.jsx`).

Conventions of the embedding:

* A JavaScript `Set` of strings is its list of elements in insertion order,
  without repetition (`JSSet`).
* A plain object whose values are booleans is its list of own properties in
  insertion order, with distinct keys (`JSObj`).  Reading an absent key gives
  `undefined`, modelled by `none`; properties inherited from
  `Object.prototype` are not part of the model.
* `useState` setters replace the component state; a handler is a function
  from the state it closes over (and from what the environment answers) to
  the new state and the list of effects it performs.
-/

namespace RedactionTool

/-! ## JavaScript `Set` of strings -/

/-- A JavaScript `Set` of strings: elements in insertion order, no repetition. -/
structure JSSet where
  elems : List String
  nodup : elems.Nodup

namespace JSSet

/-- The value of `new Set()`. -/
def empty : JSSet := ⟨[], List.nodup_nil⟩

/-- The method `Set.prototype.has`. -/
def has (s : JSSet) (x : String) : Bool := decide (x ∈ s.elems)

/-- The getter `Set.prototype.size`. -/
def size (s : JSSet) : Nat := s.elems.length

/-- The method `Set.prototype.add`: appends the value unless it is present. -/
def add (s : JSSet) (x : String) : JSSet :=
  if h : x ∈ s.elems then s
  else ⟨s.elems ++ [x], List.Nodup.append s.nodup (List.nodup_singleton x) (by simpa using h)⟩

/-- The method `Set.prototype.delete`. -/
def delete (s : JSSet) (x : String) : JSSet := ⟨s.elems.erase x, s.nodup.erase x⟩

/-- The constructor `new Set(iterable)`: adds the values one by one. -/
def ofList (l : List String) : JSSet := l.foldl add empty

/-- The value of `Array.from(set)`: the elements in insertion order. -/
def toArray (s : JSSet) : List String := s.elems

end JSSet

/-! ## Plain objects with boolean values -/

/-- A plain object whose values are booleans: own properties in insertion
order, keys distinct. -/
structure JSObj where
  entries : List (String × Bool)
  nodup : (entries.map Prod.fst).Nodup

namespace JSObj

/-- The object literal `{}`. -/
def empty : JSObj := ⟨[], List.nodup_nil⟩

/-- The value of `Object.keys(obj)`. -/
def keys (o : JSObj) : List String := o.entries.map Prod.fst

/-- The value of `Object.values(obj)`. -/
def values (o : JSObj) : List Bool := o.entries.map Prod.snd

/-- Property read `obj[k]`; `none` is `undefined`. -/
def get (o : JSObj) (k : String) : Option Bool := o.entries.lookup k

/-- Property assignment `obj[k] = v`: an existing key keeps its position and
takes the new value, a new key is appended. -/
def set (o : JSObj) (k : String) (v : Bool) : JSObj :=
  if h : k ∈ o.entries.map Prod.fst then
    ⟨o.entries.map (fun kv => if kv.1 = k then (k, v) else kv), by
      have e : (o.entries.map (fun kv => if kv.1 = k then (k, v) else kv)).map Prod.fst
          = o.entries.map Prod.fst := by
        rw [List.map_map]
        apply List.map_congr_left
        intro kv _
        by_cases hk : kv.1 = k <;> simp [hk]
      rw [e]
      exact o.nodup⟩
  else
    ⟨o.entries ++ [(k, v)], by
      rw [List.map_append]
      exact List.Nodup.append o.nodup (List.nodup_singleton k) (by simpa using h)⟩

/-- Object spread `{ ...obj }`: copies the own properties one by one into `{}`. -/
def spread (o : JSObj) : JSObj := o.entries.foldl (fun acc kv => acc.set kv.1 kv.2) empty

end JSObj

/-- The operator `!` on a value that is a boolean or `undefined`. -/
def jsNot : Option Bool → Bool
  | none => true
  | some b => !b

/-- Truthiness of a value that is a boolean or `undefined` (what a checkbox's
`checked={...}` shows). -/
def truthy : Option Bool → Bool
  | none => false
  | some b => b

/-! ## `App.jsx`: category catalogue and toggle -/

/-- An entry of the category catalogue. -/
structure Category where
  id : String
  label : String

/-- The constant `REDACTION_CATEGORIES` of `App.jsx`. -/
def REDACTION_CATEGORIES : List Category :=
  [ ⟨"PERSON", "Names"⟩,
    ⟨"ADDRESS", "Addresses (Org, Location, GPE)"⟩,
    ⟨"DATE", "Dates of Birth (DOB)"⟩,
    ⟨"PHONE", "Phone Numbers"⟩,
    ⟨"EMAIL", "Email Addresses"⟩,
    ⟨"NRIC/FIN", "NRIC/FIN Numbers"⟩,
    ⟨"MCR no.", "MCR Numbers"⟩,
    ⟨"ID_NUMBER", "Other IDs (Med. Number, IHI)"⟩ ]

/-- The constant `API_ENDPOINT` of `App.jsx`. -/
def API_ENDPOINT : String := "http://127.0.0.1:5000/redact"

/-- Initial value of `selectedCategories` in `App.jsx`:
`new Set(REDACTION_CATEGORIES.map((c) => c.id))`. -/
def initialSelectedCategories : JSSet :=
  JSSet.ofList (REDACTION_CATEGORIES.map (fun c => c.id))

/-- The handler `handleCheckboxChange` of `App.jsx`, as the updater applied to the previous
selection: copy the set, then delete the id if present, add it otherwise. -/
def handleCheckboxChange (id : String) (prev : JSSet) : JSSet :=
  let next := JSSet.ofList prev.elems
  if next.has id then next.delete id else next.add id

/-! ## `RedactionTool.js`: field selection -/

/-- Initial value of `selectedFields` in `RedactionTool.js`. -/
def initialSelectedFields : JSObj :=
  ⟨[("name", false), ("phone", false), ("dob", false), ("address", false)], by decide⟩

/-- The handler `handleFieldToggle` of `RedactionTool.js`:
`{ ...selectedFields, [field]: !selectedFields[field] }`. -/
def handleFieldToggle (selectedFields : JSObj) (field : String) : JSObj :=
  (selectedFields.spread).set field (jsNot (selectedFields.get field))

/-- Whether the checkbox of `field` is shown as checked: `selectedFields[field]`. -/
def fieldChecked (selectedFields : JSObj) (field : String) : Bool :=
  truthy (selectedFields.get field)

/-- The expression `Object.values(selectedFields).every((val) => val)`, used by
`handleSelectAll` and as the `checked` value of the "Select All" box. -/
def allSelected (selectedFields : JSObj) : Bool :=
  selectedFields.values.all (fun val => val)

/-- The handler `handleSelectAll` of `RedactionTool.js`: a `reduce` over `Object.keys`
assigning `!allSelected` to every key of a fresh object. -/
def handleSelectAll (selectedFields : JSObj) : JSObj :=
  let allSel := allSelected selectedFields
  selectedFields.keys.foldl (fun acc key => acc.set key (!allSel)) JSObj.empty

/-! ## `App.jsx`: submission client -/

/-- A browser `File`: name, MIME type and byte content. -/
structure File where
  name : String
  type : String
  content : List Nat
  deriving DecidableEq

/-- The component state of `App` in `App.jsx` (`null` is `none`). -/
structure AppState where
  file : Option File
  selectedCategories : JSSet
  isLoading : Bool
  error : Option String

/-- A `Response` as `handleSubmit` uses it: status line, and the result of
`await response.blob()` (the bytes, or the message of the rejection when
reading the body fails). -/
structure Response where
  status : Nat
  statusText : String
  blob : Except String (List Nat)

/-- The getter `Response.ok`: the status is in the range 200 to 299. -/
def Response.ok (r : Response) : Bool := decide (200 ≤ r.status) && decide (r.status ≤ 299)

/-- What `await fetch(...)` does: it rejects (network-level failure, with the
message of the rejection) or resolves with a response. -/
inductive FetchOutcome where
  | rejected (reason : String)
  | resolved (response : Response)

/-- The effects `handleSubmit` performs outside the component state. -/
inductive Effect where
  -- fetch(url, POST, formData) with the form fields file and categories
  -- (the array that is sent JSON-serialised)
  | post (url : String) (file : File) (categories : List String)
  -- a click on a synthesised anchor with the download attribute
  | download (filename : String) (blob : List Nat)
  -- console.error(label, err), with the message of err
  | consoleError (label : String) (err : String)
  deriving DecidableEq

/-- The method `String.prototype.toLowerCase`, on the ASCII letters.  The result is only
ever compared with `pdf` and `docx`, none of whose letters is the lower case of
a character outside ASCII. -/
def toLowerCase (s : List Char) : List Char := s.map Char.toLower

/-- The expression `file.name.split('.').pop().toLowerCase()`. -/
def fileExtension (name : String) : List Char :=
  toLowerCase ((List.splitOn '.' name.data).getLast (List.splitOnP_ne_nil _ _))

/-- The file renaming logic of `handleSubmit`: the value of `targetFilename`. -/
def targetFilename (name : String) : String :=
  if fileExtension name = "pdf".data then "test.pdf"
  else if fileExtension name = "docx".data then "test.docx"
  else name

/-- The message set when no file is selected. -/
def MSG_NO_FILE : String := "Please select a file to redact."

/-- The message set when no category is selected. -/
def MSG_NO_CATEGORY : String := "Please select at least one category to redact."

/-- The message set in the `catch` block of `handleSubmit`. -/
def MSG_FAILED : String := "Redaction failed. Is the backend `api.py` server running?"

/-- The handler `handleSubmit` of `App.jsx`, run to completion against the outcome of the
`fetch`: the final component state and the effects in the order performed. -/
def handleSubmit (s : AppState) (net : FetchOutcome) : AppState × List Effect :=
  match s.file with
  | none => ({ s with error := some MSG_NO_FILE }, [])
  | some file =>
    if s.selectedCategories.size = 0 then
      ({ s with error := some MSG_NO_CATEGORY }, [])
    else
      -- setIsLoading(true); setError(null)
      let s1 : AppState := { s with isLoading := true, error := none }
      -- new File([file], targetFilename, { type: file.type })
      let renamedFile : File := { file with name := targetFilename file.name }
      let request := Effect.post API_ENDPOINT renamedFile s.selectedCategories.toArray
      -- catch: console.error, setError; finally: setIsLoading(false)
      let failed (err : String) : AppState × List Effect :=
        ({ s1 with error := some MSG_FAILED, isLoading := false },
          [request, Effect.consoleError "Redaction failed:" err])
      match net with
      | FetchOutcome.rejected reason => failed reason
      | FetchOutcome.resolved response =>
        if !response.ok then
          failed ("API Error: " ++ toString response.status ++ " " ++ response.statusText)
        else
          match response.blob with
          | Except.error reason => failed reason
          | Except.ok blob =>
            ({ s1 with file := none, isLoading := false },
              [request, Effect.download "REDACTED_OUTPUT.pdf" blob])

/-- A successful response: `fetch` resolves with a 2xx status and the body is
read as a blob. -/
def FetchOutcome.successful : FetchOutcome → Bool
  | FetchOutcome.rejected _ => false
  | FetchOutcome.resolved response => response.ok && response.blob.toBool

/-- A state used in the examples: `report.pdf` selected, every category
selected, a previous error showing. -/
def exampleState : AppState :=
  { file := some ⟨"report.pdf", "application/pdf", [37, 80, 68, 70]⟩,
    selectedCategories := initialSelectedCategories,
    isLoading := false,
    error := some MSG_NO_FILE }

/-- The state and effects of a submission that fails after local validation. -/
def failedSubmit (s : AppState) (f : File) (err : String) : AppState × List Effect :=
  ({ s with isLoading := false, error := some MSG_FAILED },
    [Effect.post API_ENDPOINT { f with name := targetFilename f.name }
        s.selectedCategories.toArray,
      Effect.consoleError "Redaction failed:" err])

/-- Whether an effect is a network call. -/
def Effect.isPost : Effect → Bool
  | Effect.post _ _ _ => true
  | _ => false

/-- Whether an effect is a download. -/
def Effect.isDownload : Effect → Bool
  | Effect.download _ _ => true
  | _ => false

/-- The file names carried by the network calls among the effects. -/
def transmittedFilenames (effects : List Effect) : List String :=
  effects.filterMap (fun e => match e with
    | Effect.post _ file _ => some file.name
    | _ => none)

/-- A name ends in the given suffix when letter case is ignored (the suffix
is given in lower case). -/
def endsWithIgnoreCase (name suffix : String) : Bool :=
  suffix.data.isSuffixOf (toLowerCase name.data)

/-! ## `App.js`: admin route guard -/

/-- What a route element renders to: the given element or a `<Navigate>`. -/
inductive Rendered (α : Type) where
  | element (e : α)
  | navigate (target : String)
  deriving DecidableEq

/-- The method `localStorage.getItem`, on the stored key/value pairs; `none` is `null`. -/
def getItem (localStorage : List (String × String)) (key : String) : Option String :=
  localStorage.lookup key

/-- The component `ProtectedRoute` of `App.js`. -/
def ProtectedRoute {α : Type} (localStorage : List (String × String)) (element : α) :
    Rendered α :=
  let isAuthenticated := decide (getItem localStorage "adminAuth" = some "true")
  if isAuthenticated then Rendered.element element else Rendered.navigate "/admin/login"

/-! ## `ManageUsers.jsx`: block / unblock -/

/-- An admin user record. -/
structure User where
  id : Nat
  name : String
  email : String
  blocked : Bool
  deriving DecidableEq

/-- The effects of `toggleBlock` outside the component state. -/
inductive AdminEffect where
  -- axios.post(url, block)
  | post (url : String) (block : Bool)
  -- alert(msg)
  | alert (msg : String)
  deriving DecidableEq

/-- The handler `toggleBlock` of `ManageUsers.jsx`, run to completion: the new `users`
state and the effects; `remoteOk` says whether the remote call succeeds. -/
def toggleBlock (users : List User) (user : User) (remoteOk : Bool) :
    List User × List AdminEffect :=
  let newUsers := users.map (fun u => if u.id = user.id then { u with blocked := !u.blocked } else u)
  (newUsers,
    AdminEffect.post ("/api/admin/users/" ++ toString user.id ++ "/block") (!user.blocked)
      :: (if remoteOk then [] else [AdminEffect.alert "Action failed (mock only)."]))

/-- The `block` values sent to the remote call among the effects. -/
def sentBlockValues (effects : List AdminEffect) : List Bool :=
  effects.filterMap (fun e => match e with
    | AdminEffect.post _ b => some b
    | _ => none)

/-! ## `RedactionTool.js`: upload, redact, preview, export -/

/-- The component state of `RedactionTool` in `RedactionTool.js` (`null` is `none`). -/
structure ToolState where
  file : Option File
  previewUrl : String
  redacted : Bool
  showRedactedPreview : Bool
  selectedFields : JSObj

/-- The initial state of `RedactionTool`. -/
def initialToolState : ToolState :=
  { file := none,
    previewUrl := "",
    redacted := false,
    showRedactedPreview := false,
    selectedFields := initialSelectedFields }

/-- The effects of the handlers of `RedactionTool` outside the component state. -/
inductive ToolEffect where
  -- alert(msg)
  | alert (msg : String)
  -- a click on a synthesised anchor with the given href and download name
  | download (href : String) (filename : String)
  deriving DecidableEq

/-- The handler `handleFileUpload` of `RedactionTool.js`: `files` is
`e.target.files`, `objectUrl` the string `URL.createObjectURL` returns for
the first of them. -/
def handleFileUpload (s : ToolState) (files : List File) (objectUrl : String) : ToolState :=
  match files.head? with
  | some uploaded =>
    { s with file := some uploaded, previewUrl := objectUrl, redacted := false,
             showRedactedPreview := false }
  | none => s

/-- The handler `handleRedact` of `RedactionTool.js`. -/
def handleRedact (s : ToolState) : ToolState × List ToolEffect :=
  match s.file with
  | some _ =>
    ({ s with redacted := true },
      [ToolEffect.alert "Sensitive fields have been redacted successfully!"])
  | none => (s, [])

/-- The handler `handlePreviewRedacted` of `RedactionTool.js`. -/
def handlePreviewRedacted (s : ToolState) : ToolState :=
  if s.redacted then { s with showRedactedPreview := !s.showRedactedPreview } else s

/-- The handler `handleExport` of `RedactionTool.js`. -/
def handleExport (s : ToolState) : ToolState × List ToolEffect :=
  match s.file with
  | some file => (s, [ToolEffect.download s.previewUrl ("REDACTED_" ++ file.name)])
  | none => (s, [])

/-- An invocation of one of the handlers of `RedactionTool`, with what the
browser passes to it. -/
inductive ToolEvent where
  | fileUpload (files : List File) (objectUrl : String)
  | fieldToggle (field : String)
  | selectAll
  | redact
  | previewRedacted
  | exportRedacted

/-- The state after one handler invocation. -/
def ToolState.step (s : ToolState) : ToolEvent → ToolState
  | ToolEvent.fileUpload files objectUrl => handleFileUpload s files objectUrl
  | ToolEvent.fieldToggle field =>
    { s with selectedFields := handleFieldToggle s.selectedFields field }
  | ToolEvent.selectAll => { s with selectedFields := handleSelectAll s.selectedFields }
  | ToolEvent.redact => (handleRedact s).1
  | ToolEvent.previewRedacted => handlePreviewRedacted s
  | ToolEvent.exportRedacted => (handleExport s).1

/-- The state after a sequence of handler invocations, each seeing the state
the previous one left. -/
def ToolState.run (s : ToolState) (events : List ToolEvent) : ToolState :=
  events.foldl ToolState.step s

/-- The two flag conditions: `redacted` only with a file, `showRedactedPreview`
only with `redacted`. -/
def ToolState.flagsOk (s : ToolState) : Bool :=
  (!s.redacted || s.file.isSome) && (!s.showRedactedPreview || s.redacted)

/-! ## Lemmas on sets -/

theorem JSSet.ext_elems {s t : JSSet} (h : s.elems = t.elems) : s = t := by
  cases s; cases t; cases h; rfl

theorem JSSet.add_elems_of_not_mem {s : JSSet} {x : String} (h : x ∉ s.elems) :
    (s.add x).elems = s.elems ++ [x] := by
  simp [JSSet.add, h]

theorem JSSet.foldl_add_elems (l : List String) :
    ∀ acc : JSSet, (acc.elems ++ l).Nodup → (l.foldl JSSet.add acc).elems = acc.elems ++ l := by
  induction l with
  | nil => intro acc _; simp
  | cons a t ih =>
    intro acc h
    have ha : a ∉ acc.elems := by
      intro hm
      have := List.disjoint_of_nodup_append h hm
      simp at this
    have h' : ((acc.add a).elems ++ t).Nodup := by
      rw [JSSet.add_elems_of_not_mem ha]; simpa using h
    rw [List.foldl_cons, ih _ h', JSSet.add_elems_of_not_mem ha]
    simp

theorem JSSet.ofList_elems (s : JSSet) : JSSet.ofList s.elems = s := by
  apply JSSet.ext_elems
  have := JSSet.foldl_add_elems s.elems JSSet.empty (by simpa [JSSet.empty] using s.nodup)
  simpa [JSSet.ofList, JSSet.empty] using this

theorem JSSet.has_delete (s : JSSet) (x y : String) :
    (s.delete x).has y = (s.has y && !decide (y = x)) := by
  simp only [JSSet.has, JSSet.delete, s.nodup.mem_erase_iff]
  by_cases h : y = x <;> simp [h]

theorem JSSet.has_add (s : JSSet) (x y : String) :
    (s.add x).has y = (s.has y || decide (y = x)) := by
  by_cases hx : x ∈ s.elems
  · by_cases h : y = x
    · subst h; simp [JSSet.has, JSSet.add, hx]
    · simp [JSSet.has, JSSet.add, hx, h]
  · simp [JSSet.has, JSSet.add_elems_of_not_mem hx]

theorem has_handleCheckboxChange (s : JSSet) (id x : String) :
    (handleCheckboxChange id s).has x = if x = id then !s.has x else s.has x := by
  unfold handleCheckboxChange
  simp only [JSSet.ofList_elems]
  by_cases hid : s.has id = true
  · rw [if_pos hid, JSSet.has_delete]
    by_cases h : x = id
    · subst h; simp [hid]
    · simp [h]
  · rw [if_neg hid, JSSet.has_add]
    by_cases h : x = id
    · subst h; simp [hid]
    · simp [h]

/-! ## Lemmas on objects -/

theorem JSObj.ext_entries {o p : JSObj} (h : o.entries = p.entries) : o = p := by
  cases o; cases p; cases h; rfl

theorem JSObj.set_entries_of_not_mem {o : JSObj} {k : String} (v : Bool)
    (h : k ∉ o.entries.map Prod.fst) : (o.set k v).entries = o.entries ++ [(k, v)] := by
  simp only [JSObj.set, dif_neg h]

theorem JSObj.set_entries_of_mem {o : JSObj} {k : String} (v : Bool)
    (h : k ∈ o.entries.map Prod.fst) :
    (o.set k v).entries = o.entries.map (fun kv => if kv.1 = k then (k, v) else kv) := by
  simp only [JSObj.set, dif_pos h]

theorem lookup_cons_ite (t : List (String × Bool)) (k x : String) (v : Bool) :
    ((k, v) :: t).lookup x = if x = k then some v else t.lookup x := by
  rw [List.lookup_cons]
  by_cases h : x = k
  · subst h; simp
  · rw [beq_false_of_ne h, if_neg h]

theorem lookup_map_assign (l : List (String × Bool)) (k x : String) (v : Bool) :
    (l.map (fun kv => if kv.1 = k then (k, v) else kv)).lookup x
      = if x = k then (if k ∈ l.map Prod.fst then some v else none) else l.lookup x := by
  induction l with
  | nil => simp
  | cons a t ih =>
    obtain ⟨k', v'⟩ := a
    by_cases hk : k' = k
    · subst hk
      simp only [List.map_cons, if_true, lookup_cons_ite, ih, List.mem_cons, true_or]
      by_cases hx : x = k' <;> simp [hx]
    · have hk' : ¬ k = k' := fun e => hk e.symm
      simp only [List.map_cons, hk, if_false, lookup_cons_ite, ih, List.mem_cons, hk', false_or]
      by_cases hx : x = k
      · subst hx; simp [hk']
      · simp [hx]

theorem lookup_append_single (l : List (String × Bool)) (k x : String) (v : Bool)
    (h : k ∉ l.map Prod.fst) :
    (l ++ [(k, v)]).lookup x = if x = k then some v else l.lookup x := by
  induction l with
  | nil => simp [lookup_cons_ite]
  | cons a t ih =>
    obtain ⟨k', v'⟩ := a
    have hk : ¬ k = k' := by
      intro e; apply h; simp [e]
    have ht : k ∉ t.map Prod.fst := by
      intro hm; apply h; simp only [List.map_cons, List.mem_cons]; exact Or.inr hm
    simp only [List.cons_append, lookup_cons_ite, ih ht]
    by_cases hx' : x = k'
    · subst hx'
      have : ¬ x = k := fun e => hk e.symm
      simp [this]
    · simp [hx']

theorem JSObj.get_set (o : JSObj) (k x : String) (v : Bool) :
    (o.set k v).get x = if x = k then some v else o.get x := by
  by_cases h : k ∈ o.entries.map Prod.fst
  · simp only [JSObj.get, JSObj.set_entries_of_mem v h, lookup_map_assign, if_pos h]
  · simp only [JSObj.get, JSObj.set_entries_of_not_mem v h, lookup_append_single _ _ _ _ h]

theorem JSObj.foldl_set_entries (l : List (String × Bool)) :
    ∀ acc : JSObj, (acc.entries.map Prod.fst ++ l.map Prod.fst).Nodup →
      (l.foldl (fun acc kv => acc.set kv.1 kv.2) acc).entries = acc.entries ++ l := by
  induction l with
  | nil => intro acc _; simp
  | cons a t ih =>
    intro acc h
    have ha : a.1 ∉ acc.entries.map Prod.fst := by
      intro hm
      have := List.disjoint_of_nodup_append h hm
      simp at this
    have h' : ((acc.set a.1 a.2).entries.map Prod.fst ++ t.map Prod.fst).Nodup := by
      rw [JSObj.set_entries_of_not_mem _ ha]; simpa using h
    rw [List.foldl_cons, ih _ h', JSObj.set_entries_of_not_mem _ ha]
    simp

theorem JSObj.spread_eq (o : JSObj) : o.spread = o := by
  apply JSObj.ext_entries
  have := JSObj.foldl_set_entries o.entries JSObj.empty (by simpa [JSObj.empty] using o.nodup)
  simpa [JSObj.spread, JSObj.empty] using this

theorem fieldChecked_handleFieldToggle (o : JSObj) (field x : String) :
    fieldChecked (handleFieldToggle o field) x
      = if x = field then !fieldChecked o x else fieldChecked o x := by
  unfold fieldChecked handleFieldToggle
  rw [JSObj.spread_eq, JSObj.get_set]
  by_cases h : x = field
  · subst h
    cases o.get x with
    | none => simp [jsNot, truthy]
    | some b => simp [jsNot, truthy]
  · simp [h]

/-! ## Category toggles -/

/-- C1: for every selection and identifier, a single toggle flips the
membership of that identifier and of no other, and toggling twice with the
same identifier gives back the original membership; this holds for
`handleCheckboxChange` (`App.jsx`) and for `handleFieldToggle`
(`RedactionTool.js`). -/
theorem toggle_twice_and_frame (s : JSSet) (o : JSObj) (id x : String) :
    ((handleCheckboxChange id s).has x = if x = id then !s.has x else s.has x)
    ∧ (handleCheckboxChange id (handleCheckboxChange id s)).has x = s.has x
    ∧ (fieldChecked (handleFieldToggle o id) x
        = if x = id then !fieldChecked o x else fieldChecked o x)
    ∧ fieldChecked (handleFieldToggle (handleFieldToggle o id) id) x = fieldChecked o x := by
  refine ⟨has_handleCheckboxChange s id x, ?_, fieldChecked_handleFieldToggle o id x, ?_⟩
  · rw [has_handleCheckboxChange, has_handleCheckboxChange]
    by_cases h : x = id <;> simp [h]
  · rw [fieldChecked_handleFieldToggle, fieldChecked_handleFieldToggle]
    by_cases h : x = id <;> simp [h]

/-! ## Select all -/

theorem JSObj.foldl_set_const (v : Bool) (ks : List String) :
    ∀ acc : JSObj, (acc.entries.map Prod.fst ++ ks).Nodup →
      (ks.foldl (fun acc key => acc.set key v) acc).entries
        = acc.entries ++ ks.map (fun k => (k, v)) := by
  induction ks with
  | nil => intro acc _; simp
  | cons a t ih =>
    intro acc h
    have ha : a ∉ acc.entries.map Prod.fst := by
      intro hm
      have := List.disjoint_of_nodup_append h hm
      simp at this
    have h' : ((acc.set a v).entries.map Prod.fst ++ t).Nodup := by
      rw [JSObj.set_entries_of_not_mem _ ha]; simpa using h
    rw [List.foldl_cons, ih _ h', JSObj.set_entries_of_not_mem _ ha]
    simp

theorem handleSelectAll_entries (o : JSObj) :
    (handleSelectAll o).entries = o.keys.map (fun k => (k, !allSelected o)) := by
  have := JSObj.foldl_set_const (!allSelected o) o.keys JSObj.empty
    (by simpa [JSObj.empty, JSObj.keys] using o.nodup)
  simpa [handleSelectAll, JSObj.empty] using this

theorem entries_of_allSelected (o : JSObj) (h : allSelected o = true) :
    o.entries = o.keys.map (fun k => (k, true)) := by
  obtain ⟨l, hl⟩ := o
  simp only [allSelected, JSObj.values, JSObj.keys] at h ⊢
  clear hl
  induction l with
  | nil => rfl
  | cons a t ih =>
    obtain ⟨k, b⟩ := a
    simp only [List.map_cons, List.all_cons, Bool.and_eq_true] at h
    obtain ⟨hb, ht⟩ := h
    simp only [List.map_cons, ← ih ht]
    rw [hb]

/-- C2: `handleSelectAll` keeps the field keys and sets every field to the
negation of "all fields are currently selected": from the all-selected state
it gives the all-cleared state, from any other state the all-selected state
(the "Select All" box is then on), and invoked twice from the all-selected
state it gives that state back. -/
theorem handleSelectAll_spec (o : JSObj) :
    (handleSelectAll o).keys = o.keys
    ∧ (handleSelectAll o).entries = o.keys.map (fun k => (k, !allSelected o))
    ∧ (allSelected o = true →
        (handleSelectAll o).entries = o.keys.map (fun k => (k, false))
        ∧ handleSelectAll (handleSelectAll o) = o)
    ∧ (allSelected o = false →
        (handleSelectAll o).entries = o.keys.map (fun k => (k, true))
        ∧ allSelected (handleSelectAll o) = true) := by
  have hE := handleSelectAll_entries o
  have hK : (handleSelectAll o).keys = o.keys := by
    simp only [JSObj.keys, hE, List.map_map]
    exact List.map_congr_left (fun _ _ => rfl)
  refine ⟨hK, hE, ?_, ?_⟩
  · intro h
    have h1 : (handleSelectAll o).entries = o.keys.map (fun k => (k, false)) := by
      rw [hE, h]; rfl
    refine ⟨h1, ?_⟩
    apply JSObj.ext_entries
    rw [handleSelectAll_entries, hK, entries_of_allSelected o h]
    by_cases hk : o.keys = []
    · simp [hk]
    · have : allSelected (handleSelectAll o) = false := by
        simp only [allSelected, JSObj.values, h1, List.map_map]
        cases hl : o.keys with
        | nil => exact absurd hl hk
        | cons a t => simp
      rw [this]; rfl
  · intro h
    have h1 : (handleSelectAll o).entries = o.keys.map (fun k => (k, true)) := by
      rw [hE, h]; rfl
    refine ⟨h1, ?_⟩
    simp [allSelected, JSObj.values, h1]

/-- Witness for C2 at the state with every field selected and at the initial
state (no field selected). -/
theorem handleSelectAll_spec_witness :
    allSelected (handleSelectAll initialSelectedFields) = true
    ∧ (handleSelectAll (handleSelectAll initialSelectedFields)).entries
        = [("name", false), ("phone", false), ("dob", false), ("address", false)]
    ∧ handleSelectAll (handleSelectAll (handleSelectAll initialSelectedFields))
        = handleSelectAll initialSelectedFields :=
  have hinit : allSelected initialSelectedFields = false := by decide
  have hall := ((handleSelectAll_spec initialSelectedFields).2.2.2 hinit).2
  ⟨hall, by decide,
    ((handleSelectAll_spec (handleSelectAll initialSelectedFields)).2.2.1 hall).2⟩

/-! ## Submission: local validation -/

theorem handleSubmit_of_no_file (s : AppState) (net : FetchOutcome) (h : s.file = none) :
    handleSubmit s net = ({ s with error := some MSG_NO_FILE }, []) := by
  simp only [handleSubmit, h]

theorem handleSubmit_of_no_category (s : AppState) (net : FetchOutcome) (f : File)
    (hf : s.file = some f) (h : s.selectedCategories.size = 0) :
    handleSubmit s net = ({ s with error := some MSG_NO_CATEGORY }, []) := by
  simp only [handleSubmit, hf, h, if_true]

theorem handleSubmit_rejected (s : AppState) (f : File) (reason : String)
    (hf : s.file = some f) (hc : s.selectedCategories.size ≠ 0) :
    handleSubmit s (FetchOutcome.rejected reason) = failedSubmit s f reason := by
  simp only [handleSubmit, hf, hc, if_false, failedSubmit]

theorem handleSubmit_not_ok (s : AppState) (f : File) (r : Response)
    (hf : s.file = some f) (hc : s.selectedCategories.size ≠ 0) (hok : r.ok = false) :
    handleSubmit s (FetchOutcome.resolved r)
      = failedSubmit s f ("API Error: " ++ toString r.status ++ " " ++ r.statusText) := by
  simp [handleSubmit, hf, hc, hok, failedSubmit]

theorem handleSubmit_blob_rejected (s : AppState) (f : File) (r : Response) (reason : String)
    (hf : s.file = some f) (hc : s.selectedCategories.size ≠ 0) (hok : r.ok = true)
    (hb : r.blob = Except.error reason) :
    handleSubmit s (FetchOutcome.resolved r) = failedSubmit s f reason := by
  simp [handleSubmit, hf, hc, hok, hb, failedSubmit]

theorem handleSubmit_success (s : AppState) (f : File) (r : Response) (blob : List Nat)
    (hf : s.file = some f) (hc : s.selectedCategories.size ≠ 0) (hok : r.ok = true)
    (hb : r.blob = Except.ok blob) :
    handleSubmit s (FetchOutcome.resolved r)
      = ({ s with file := none, isLoading := false, error := none },
          [Effect.post API_ENDPOINT { f with name := targetFilename f.name }
              s.selectedCategories.toArray,
            Effect.download "REDACTED_OUTPUT.pdf" blob]) := by
  simp [handleSubmit, hf, hc, hok, hb]

/-- Every submission that passes local validation either fails (some error is
logged) or succeeds with the blob of the response; in both cases the request
is the first effect. -/
theorem handleSubmit_cases (s : AppState) (f : File) (net : FetchOutcome)
    (hf : s.file = some f) (hc : s.selectedCategories.size ≠ 0) :
    (net.successful = false ∧ ∃ err, handleSubmit s net = failedSubmit s f err)
    ∨ (net.successful = true ∧ ∃ blob, handleSubmit s net
        = ({ s with file := none, isLoading := false, error := none },
            [Effect.post API_ENDPOINT { f with name := targetFilename f.name }
                s.selectedCategories.toArray,
              Effect.download "REDACTED_OUTPUT.pdf" blob])) := by
  cases net with
  | rejected reason => exact Or.inl ⟨rfl, _, handleSubmit_rejected s f reason hf hc⟩
  | resolved r =>
    cases hok : r.ok with
    | false =>
      exact Or.inl ⟨by simp [FetchOutcome.successful, hok], _, handleSubmit_not_ok s f r hf hc hok⟩
    | true =>
      cases hb : r.blob with
      | error reason =>
        exact Or.inl ⟨by simp [FetchOutcome.successful, hb, Except.toBool], _,
          handleSubmit_blob_rejected s f r reason hf hc hok hb⟩
      | ok blob =>
        exact Or.inr ⟨by simp [FetchOutcome.successful, hok, hb, Except.toBool], _,
          handleSubmit_success s f r blob hf hc hok hb⟩

/-- C3: `handleSubmit` issues the POST to the redaction endpoint exactly when
a file is selected and the category set is non-empty; otherwise it performs no
network call (no effect at all), sets a validation message, and leaves the
file, the category selection and the loading flag as they were. -/
theorem handleSubmit_validation (s : AppState) (net : FetchOutcome) :
    ((∃ e ∈ (handleSubmit s net).2, e.isPost = true)
        ↔ (s.file ≠ none ∧ s.selectedCategories.size ≠ 0))
    ∧ ((s.file ≠ none ∧ s.selectedCategories.size ≠ 0) →
        ∃ sent, (handleSubmit s net).2.head?
          = some (Effect.post API_ENDPOINT sent s.selectedCategories.toArray))
    ∧ ((s.file = none ∨ s.selectedCategories.size = 0) →
        (handleSubmit s net).2 = []
        ∧ (handleSubmit s net).1.error ≠ none
        ∧ (handleSubmit s net).1.file = s.file
        ∧ (handleSubmit s net).1.selectedCategories = s.selectedCategories
        ∧ (handleSubmit s net).1.isLoading = s.isLoading) := by
  cases hf : s.file with
  | none =>
    rw [handleSubmit_of_no_file s net hf]
    simp [hf]
  | some f =>
    by_cases hc : s.selectedCategories.size = 0
    · rw [handleSubmit_of_no_category s net f hf hc]
      simp [hf, hc]
    · have hpost : (∃ e ∈ (handleSubmit s net).2, e.isPost = true)
          ∧ ∃ sent, (handleSubmit s net).2.head?
              = some (Effect.post API_ENDPOINT sent s.selectedCategories.toArray) := by
        rcases handleSubmit_cases s f net hf hc with ⟨_, err, h⟩ | ⟨_, blob, h⟩
        · rw [h]; exact ⟨⟨_, List.mem_cons_self _ _, rfl⟩, _, rfl⟩
        · rw [h]; exact ⟨⟨_, List.mem_cons_self _ _, rfl⟩, _, rfl⟩
      refine ⟨⟨fun _ => ⟨by simp, hc⟩, fun _ => hpost.1⟩, fun _ => hpost.2, ?_⟩
      rintro (h | h)
      · simp at h
      · exact absurd h hc

/-- Witness for C3: with no file selected nothing is sent; with `report.pdf`
and all categories selected the POST goes out. -/
theorem handleSubmit_validation_witness :
    (handleSubmit { exampleState with file := none } (FetchOutcome.rejected "")).2 = []
    ∧ (handleSubmit { exampleState with file := none } (FetchOutcome.rejected "")).1.error ≠ none
    ∧ ∃ sent, (handleSubmit exampleState (FetchOutcome.rejected "")).2.head?
        = some (Effect.post API_ENDPOINT sent exampleState.selectedCategories.toArray) :=
  have h1 := (handleSubmit_validation { exampleState with file := none }
    (FetchOutcome.rejected "")).2.2 (Or.inl rfl)
  ⟨h1.1, h1.2.1,
    (handleSubmit_validation exampleState (FetchOutcome.rejected "")).2.1
      ⟨by simp [exampleState], by decide⟩⟩

/-! ## Submission: transmitted file name -/

theorem toLower_eq_dot {c : Char} (h : c.toLower = '.') : c = '.' := by
  by_cases hr : c.toNat ≥ 65 ∧ c.toNat ≤ 90
  · exfalso
    have e : c.toLower = Char.ofNat (c.toNat + 32) := by
      simp only [Char.toLower, hr, and_self, if_true]
    rw [e] at h
    obtain ⟨h1, h2⟩ := hr
    revert h
    generalize c.toNat = n at h1 h2 ⊢
    interval_cases n <;> decide
  · have e : c.toLower = c := by
      simp only [Char.toLower, hr, if_false]
    rw [← e]; exact h

theorem go_append_sep (p : Char → Bool) (sep : Char) (hsep : p sep = true) (ext : List Char) :
    ∀ (pre acc : List Char), ∃ L,
      List.splitOnP.go p (pre ++ sep :: ext) acc = L ++ List.splitOnP.go p ext [] := by
  intro pre
  induction pre with
  | nil =>
    intro acc
    exact ⟨[acc.reverse], by simp [List.splitOnP.go, hsep]⟩
  | cons a t ih =>
    intro acc
    by_cases ha : p a = true
    · obtain ⟨L, hL⟩ := ih []
      exact ⟨acc.reverse :: L, by simp [List.splitOnP.go, ha, hL]⟩
    · obtain ⟨L, hL⟩ := ih (a :: acc)
      exact ⟨L, by simp [List.splitOnP.go, ha, hL]⟩

theorem getLast_splitOn_dot (pre ext : List Char) (hext : '.' ∉ ext) :
    (List.splitOn '.' (pre ++ '.' :: ext)).getLast (List.splitOnP_ne_nil _ _) = ext := by
  have hsingle : List.splitOnP.go (fun x => x == '.') ext [] = [ext] := by
    have : List.splitOnP (fun x => x == '.') ext = [ext] :=
      List.splitOnP_eq_single _ ext (fun x hx => by
        have : x ≠ '.' := fun e => hext (e ▸ hx)
        simpa using this)
    simpa [List.splitOnP] using this
  obtain ⟨L, hL⟩ := go_append_sep (fun x => x == '.') '.' (by simp) ext pre []
  have hL' : List.splitOn '.' (pre ++ '.' :: ext) = L ++ [ext] := by
    rw [← hsingle, ← hL]; rfl
  simp only [hL']
  simp

theorem fileExtension_of_dot (name : String) (pre ext : List Char)
    (h : name.data = pre ++ '.' :: ext) (hext : '.' ∉ ext) :
    fileExtension name = toLowerCase ext := by
  unfold fileExtension
  simp only [h]
  rw [getLast_splitOn_dot pre ext hext]

theorem fileExtension_of_endsWith (name : String) (e : List Char) (he : '.' ∉ e)
    (h : ('.' :: e).isSuffixOf (toLowerCase name.data) = true) :
    fileExtension name = e := by
  rw [List.isSuffixOf_iff_suffix] at h
  obtain ⟨pre', hp⟩ := h
  unfold toLowerCase at hp
  obtain ⟨l₁, l₂, hl, -, h2⟩ := List.map_eq_append_iff.mp hp.symm
  obtain ⟨c, ext, hl₂, hc, hext⟩ := List.map_eq_cons_iff.mp h2
  have hdot : c = '.' := toLower_eq_dot hc
  have hno : '.' ∉ ext := by
    intro hm
    apply he
    rw [← hext]
    exact List.mem_map.mpr ⟨'.', hm, by decide⟩
  rw [fileExtension_of_dot name l₁ ext (by rw [hl, hl₂, hdot]) hno]
  exact hext

theorem targetFilename_of_pdf (name : String) (h : endsWithIgnoreCase name ".pdf" = true) :
    targetFilename name = "test.pdf" := by
  have := fileExtension_of_endsWith name "pdf".data (by decide) h
  simp only [targetFilename, this, if_true]

theorem targetFilename_of_docx (name : String) (h : endsWithIgnoreCase name ".docx" = true) :
    targetFilename name = "test.docx" := by
  have := fileExtension_of_endsWith name "docx".data (by decide) h
  have hne : ¬ "docx".data = "pdf".data := by decide
  simp only [targetFilename, this, hne, if_false, if_true]

theorem transmittedFilenames_handleSubmit (s : AppState) (f : File) (net : FetchOutcome)
    (hf : s.file = some f) (hc : s.selectedCategories.size ≠ 0) :
    transmittedFilenames (handleSubmit s net).2 = [targetFilename f.name] := by
  rcases handleSubmit_cases s f net hf hc with ⟨_, err, h⟩ | ⟨_, blob, h⟩
  · rw [h]; rfl
  · rw [h]; rfl

/-- C4: for every selected file whose name ends in `.pdf` (in any letter case)
the file name that `handleSubmit` transmits is exactly `test.pdf`, and for
every file whose name ends in `.docx` (in any letter case) it is exactly
`test.docx`, whatever the rest of the name and the outcome of the request. -/
theorem transmitted_name_of_pdf_docx (s : AppState) (f : File) (net : FetchOutcome)
    (hf : s.file = some f) (hc : s.selectedCategories.size ≠ 0) :
    (endsWithIgnoreCase f.name ".pdf" = true →
        transmittedFilenames (handleSubmit s net).2 = ["test.pdf"])
    ∧ (endsWithIgnoreCase f.name ".docx" = true →
        transmittedFilenames (handleSubmit s net).2 = ["test.docx"]) := by
  rw [transmittedFilenames_handleSubmit s f net hf hc]
  exact ⟨fun h => by rw [targetFilename_of_pdf _ h], fun h => by rw [targetFilename_of_docx _ h]⟩

/-- Witness for C4: `report.pdf` is sent as `test.pdf`, `notes.DOCX` as `test.docx`. -/
theorem transmitted_name_of_pdf_docx_witness :
    transmittedFilenames (handleSubmit exampleState (FetchOutcome.rejected "")).2 = ["test.pdf"]
    ∧ transmittedFilenames
        (handleSubmit { exampleState with file := some ⟨"notes.DOCX", "", []⟩ }
          (FetchOutcome.resolved ⟨200, "OK", Except.ok []⟩)).2 = ["test.docx"] :=
  ⟨(transmitted_name_of_pdf_docx exampleState ⟨"report.pdf", "application/pdf", [37, 80, 68, 70]⟩
      (FetchOutcome.rejected "") rfl (by decide)).1 (by decide),
    (transmitted_name_of_pdf_docx { exampleState with file := some ⟨"notes.DOCX", "", []⟩ }
      ⟨"notes.DOCX", "", []⟩ (FetchOutcome.resolved ⟨200, "OK", Except.ok []⟩) rfl
      (by decide)).2 (by decide)⟩

theorem exists_last_dot (l : List Char) (h : '.' ∈ l) :
    ∃ pre ext, l = pre ++ '.' :: ext ∧ '.' ∉ ext := by
  induction l with
  | nil => simp at h
  | cons a t ih =>
    by_cases ht : '.' ∈ t
    · obtain ⟨pre, ext, hl, hext⟩ := ih ht
      exact ⟨a :: pre, ext, by rw [hl]; rfl, hext⟩
    · have ha : a = '.' := by
        rcases List.mem_cons.mp h with h' | h'
        · exact h'.symm
        · exact absurd h' ht
      exact ⟨[], t, by rw [ha]; rfl, ht⟩

theorem fileExtension_of_no_dot (name : String) (h : '.' ∉ name.data) :
    fileExtension name = toLowerCase name.data := by
  unfold fileExtension
  have : List.splitOn '.' name.data = [name.data] :=
    List.splitOnP_eq_single _ name.data (fun x hx => by
      have : x ≠ '.' := fun e => h (e ▸ hx)
      simpa using this)
  simp only [this, List.getLast_singleton]

theorem endsWith_of_fileExtension (name : String) (e : List Char) (hdot : '.' ∈ name.data)
    (h : fileExtension name = e) :
    ('.' :: e).isSuffixOf (toLowerCase name.data) = true := by
  obtain ⟨pre, ext, hl, hext⟩ := exists_last_dot name.data hdot
  rw [fileExtension_of_dot name pre ext hl hext] at h
  rw [List.isSuffixOf_iff_suffix]
  refine ⟨toLowerCase pre, ?_⟩
  rw [hl, ← h]
  simp [toLowerCase]

/-- The part of the renaming rule that holds: a name keeps itself unless it
ends in `.pdf` or `.docx`, or is itself `pdf` or `docx`, letter case ignored. -/
theorem targetFilename_eq_self (name : String)
    (h1 : endsWithIgnoreCase name ".pdf" = false)
    (h2 : endsWithIgnoreCase name ".docx" = false)
    (h3 : toLowerCase name.data ≠ "pdf".data)
    (h4 : toLowerCase name.data ≠ "docx".data) :
    targetFilename name = name := by
  have hp : fileExtension name ≠ "pdf".data := by
    intro h
    by_cases hdot : '.' ∈ name.data
    · have := endsWith_of_fileExtension name _ hdot h
      rw [show endsWithIgnoreCase name ".pdf"
        = ('.' :: "pdf".data).isSuffixOf (toLowerCase name.data) from rfl, this] at h1
      exact Bool.noConfusion h1
    · rw [fileExtension_of_no_dot name hdot] at h
      exact h3 h
  have hd : fileExtension name ≠ "docx".data := by
    intro h
    by_cases hdot : '.' ∈ name.data
    · have := endsWith_of_fileExtension name _ hdot h
      rw [show endsWithIgnoreCase name ".docx"
        = ('.' :: "docx".data).isSuffixOf (toLowerCase name.data) from rfl, this] at h2
      exact Bool.noConfusion h2
    · rw [fileExtension_of_no_dot name hdot] at h
      exact h4 h
  simp only [targetFilename, hp, hd, if_false]

/-- C5 (failing input): a file whose name is `pdf`, with no dot, does not end in
`.pdf` or `.docx`, yet `handleSubmit` transmits it under the name `test.pdf`;
likewise `DOCX` is transmitted as `test.docx`. -/
theorem transmitted_name_without_dot :
    endsWithIgnoreCase "pdf" ".pdf" = false
    ∧ endsWithIgnoreCase "pdf" ".docx" = false
    ∧ transmittedFilenames
        (handleSubmit { exampleState with file := some ⟨"pdf", "application/pdf", []⟩ }
          (FetchOutcome.resolved ⟨200, "OK", Except.ok []⟩)).2 = ["test.pdf"]
    ∧ targetFilename "DOCX" = "test.docx" := by
  decide

/-! ## Submission: outcomes -/

/-- C6 (counterexample): for `report.pdf` with all categories selected and a
`500 Internal Server Error` response, the error state is the fixed
`MSG_FAILED`, which contains neither `500` nor the status text, and it is the
very message set when the server is unreachable. -/
theorem status_absent_from_error_state :
    (handleSubmit exampleState
        (FetchOutcome.resolved ⟨500, "Internal Server Error", Except.ok []⟩)).1.error = some MSG_FAILED
    ∧ ¬ ("500".data <:+: MSG_FAILED.data)
    ∧ ¬ ("Internal Server Error".data <:+: MSG_FAILED.data)
    ∧ (handleSubmit exampleState
        (FetchOutcome.resolved ⟨500, "Internal Server Error", Except.ok []⟩)).1.error
      = (handleSubmit exampleState (FetchOutcome.rejected "Failed to fetch")).1.error := by
  decide

/-- C6 (amended): for every submission that passes local validation and
receives a non-success HTTP status, the error state is the fixed message
`MSG_FAILED`, the same as after a network-level failure; the status code and
status text go only into the error passed to `console.error`. -/
theorem http_error_message (s : AppState) (f : File) (r : Response) (reason : String)
    (hf : s.file = some f) (hc : s.selectedCategories.size ≠ 0) (hok : r.ok = false) :
    (handleSubmit s (FetchOutcome.resolved r)).1.error = some MSG_FAILED
    ∧ (handleSubmit s (FetchOutcome.resolved r)).1.error
        = (handleSubmit s (FetchOutcome.rejected reason)).1.error
    ∧ Effect.consoleError "Redaction failed:"
        ("API Error: " ++ toString r.status ++ " " ++ r.statusText)
        ∈ (handleSubmit s (FetchOutcome.resolved r)).2 := by
  rw [handleSubmit_not_ok s f r hf hc hok, handleSubmit_rejected s f reason hf hc]
  exact ⟨rfl, rfl, by simp [failedSubmit]⟩

/-- Witness for C6 (amended) at a `404 Not Found` response. -/
theorem http_error_message_witness :
    (handleSubmit exampleState (FetchOutcome.resolved ⟨404, "Not Found", Except.ok []⟩)).1.error
      = some MSG_FAILED
    ∧ Effect.consoleError "Redaction failed:" "API Error: 404 Not Found"
        ∈ (handleSubmit exampleState (FetchOutcome.resolved ⟨404, "Not Found", Except.ok []⟩)).2 :=
  have h := http_error_message exampleState ⟨"report.pdf", "application/pdf", [37, 80, 68, 70]⟩
    ⟨404, "Not Found", Except.ok []⟩ "" rfl (by decide) (by decide)
  ⟨h.1, h.2.2⟩

/-- C7: for every submission that passes local validation, the download is
triggered and the file cleared exactly when the response is successful (2xx
status, body read as a blob): then there is one download, the file becomes
`null` and no error is set; after a non-2xx status or a network failure there
is no download, an error is set and the file stays.  In every case the
category selection is unchanged and the loading flag ends `false`. -/
theorem handleSubmit_outcome (s : AppState) (f : File) (net : FetchOutcome)
    (hf : s.file = some f) (hc : s.selectedCategories.size ≠ 0) :
    ((handleSubmit s net).1.selectedCategories = s.selectedCategories
      ∧ (handleSubmit s net).1.isLoading = false)
    ∧ ((∃ e ∈ (handleSubmit s net).2, e.isDownload = true) ↔ net.successful = true)
    ∧ ((handleSubmit s net).1.file = none ↔ net.successful = true)
    ∧ (net.successful = true →
        (∃ blob, (handleSubmit s net).2.filter Effect.isDownload
          = [Effect.download "REDACTED_OUTPUT.pdf" blob])
        ∧ (handleSubmit s net).1.file = none
        ∧ (handleSubmit s net).1.error = none)
    ∧ (net.successful = false →
        (handleSubmit s net).2.filter Effect.isDownload = []
        ∧ (handleSubmit s net).1.error ≠ none
        ∧ (handleSubmit s net).1.file = s.file) := by
  rcases handleSubmit_cases s f net hf hc with ⟨hs, err, h⟩ | ⟨hs, blob, h⟩
  · rw [h, hs]
    simp [failedSubmit, Effect.isDownload, hf]
  · rw [h, hs]
    simp [Effect.isDownload]

/-- Witness for C7 at a `200 OK` response, a `503` response and an unreachable server. -/
theorem handleSubmit_outcome_witness :
    (handleSubmit exampleState (FetchOutcome.resolved ⟨200, "OK", Except.ok [1, 2]⟩)).1.file = none
    ∧ (handleSubmit exampleState
        (FetchOutcome.resolved ⟨503, "Service Unavailable", Except.ok []⟩)).1.file
      = exampleState.file
    ∧ (handleSubmit exampleState (FetchOutcome.rejected "Failed to fetch")).2.filter
        Effect.isDownload = [] :=
  ⟨((handleSubmit_outcome exampleState ⟨"report.pdf", "application/pdf", [37, 80, 68, 70]⟩
      (FetchOutcome.resolved ⟨200, "OK", Except.ok [1, 2]⟩) rfl (by decide)).2.2.2.1 (by decide)).2.1,
    ((handleSubmit_outcome exampleState ⟨"report.pdf", "application/pdf", [37, 80, 68, 70]⟩
      (FetchOutcome.resolved ⟨503, "Service Unavailable", Except.ok []⟩) rfl
      (by decide)).2.2.2.2 (by decide)).2.2,
    ((handleSubmit_outcome exampleState ⟨"report.pdf", "application/pdf", [37, 80, 68, 70]⟩
      (FetchOutcome.rejected "Failed to fetch") rfl (by decide)).2.2.2.2 (by decide)).1⟩

/-! ## Admin route guard -/

/-- C8: for every content of the local storage, `ProtectedRoute` renders the
protected element if and only if the value stored under `adminAuth` is exactly
the string `true`; otherwise (key absent, `false`, `True`, `1`, ` true`, or
any other string) it renders the redirect to `/admin/login`. -/
theorem ProtectedRoute_spec {α : Type} (localStorage : List (String × String)) (element : α) :
    (ProtectedRoute localStorage element = Rendered.element element
        ↔ getItem localStorage "adminAuth" = some "true")
    ∧ (ProtectedRoute localStorage element = Rendered.navigate "/admin/login"
        ↔ getItem localStorage "adminAuth" ≠ some "true")
    ∧ (getItem localStorage "adminAuth"
          ∈ [none, some "false", some "True", some "1", some " true"] →
        ProtectedRoute localStorage element = Rendered.navigate "/admin/login") := by
  have key : ∀ v : Option String, getItem localStorage "adminAuth" = v →
      (ProtectedRoute localStorage element = Rendered.element element ↔ v = some "true")
      ∧ (ProtectedRoute localStorage element = Rendered.navigate "/admin/login"
          ↔ v ≠ some "true") := by
    intro v hv
    by_cases h : v = some "true"
    · simp [ProtectedRoute, hv, h]
    · simp [ProtectedRoute, hv, h]
  obtain ⟨h1, h2⟩ := key _ rfl
  refine ⟨h1, h2, fun hm => h2.mpr ?_⟩
  intro hv
  rw [hv] at hm
  revert hm
  decide

/-- Witness for C8: an empty storage and a stored ` true` (leading blank)
both redirect; a stored `true` renders the element. -/
theorem ProtectedRoute_spec_witness :
    ProtectedRoute [] "AdminDashboard" = Rendered.navigate "/admin/login"
    ∧ ProtectedRoute [("adminAuth", " true")] "AdminDashboard"
        = Rendered.navigate "/admin/login"
    ∧ ProtectedRoute [("theme", "dark"), ("adminAuth", "true")] "AdminDashboard"
        = Rendered.element "AdminDashboard" :=
  ⟨(ProtectedRoute_spec [] "AdminDashboard").2.2 (by decide),
    (ProtectedRoute_spec [("adminAuth", " true")] "AdminDashboard").2.2 (by decide),
    (ProtectedRoute_spec [("theme", "dark"), ("adminAuth", "true")] "AdminDashboard").1.mpr
      (by decide)⟩

/-! ## Block / unblock -/

/-- C9: for every user list and every user in it (the entry at index `i`),
`toggleBlock` gives a list of the same length in which the entry at every
index `j` keeps its id, name and email and has its blocked flag negated
exactly when its id equals that user's id; the list is the same whether the
remote call succeeds or fails, and the single value sent to the remote call
is the new blocked flag shown for that user. -/
theorem toggleBlock_spec (users : List User) (i : Fin users.length) (remoteOk : Bool) :
    (toggleBlock users (users.get i) remoteOk).1.length = users.length
    ∧ (∀ j : Fin users.length,
        (toggleBlock users (users.get i) remoteOk).1[j.val]?
          = some { users.get j with
              blocked := if (users.get j).id = (users.get i).id then !(users.get j).blocked
                else (users.get j).blocked })
    ∧ (toggleBlock users (users.get i) true).1 = (toggleBlock users (users.get i) false).1
    ∧ sentBlockValues (toggleBlock users (users.get i) remoteOk).2 = [!(users.get i).blocked]
    ∧ ((toggleBlock users (users.get i) remoteOk).1[i.val]?).map User.blocked
        = some (!(users.get i).blocked) := by
  have hget : ∀ j : Fin users.length,
      (toggleBlock users (users.get i) remoteOk).1[j.val]?
        = some { users.get j with
            blocked := if (users.get j).id = (users.get i).id then !(users.get j).blocked
              else (users.get j).blocked } := by
    intro j
    simp only [toggleBlock, List.getElem?_map, List.getElem?_eq_getElem j.isLt, Option.map_some',
      List.get_eq_getElem]
    by_cases h : users[j.val].id = users[i.val].id
    · simp [h]
    · simp [h]
  refine ⟨by simp [toggleBlock], hget, rfl, ?_, ?_⟩
  · cases remoteOk <;> rfl
  · rw [hget i]; simp

/-! ## Initial selection -/

/-- C10 (counterexample): in `RedactionTool.js` the initial `selectedFields`
does not mark the field `name` as selected, and the "Select All" box is
initially off. -/
theorem initial_fields_counterexample :
    fieldChecked initialSelectedFields "name" = false
    ∧ allSelected initialSelectedFields = false
    ∧ ¬ (∀ field ∈ initialSelectedFields.keys, fieldChecked initialSelectedFields field = true) := by
  refine ⟨by decide, by decide, fun h => ?_⟩
  have := h "name" (by decide)
  revert this
  decide

/-- C10 (amended): in `App.jsx` the initial `selectedCategories` is the set of
all ids of `REDACTION_CATEGORIES`, 8 distinct identifiers; in
`RedactionTool.js` the initial `selectedFields` has the four fields `name`,
`phone`, `dob`, `address`, none of them selected, so the "Select All" box is
initially off. -/
theorem initial_selection :
    initialSelectedCategories.toArray = REDACTION_CATEGORIES.map (fun c => c.id)
    ∧ initialSelectedCategories.size = 8
    ∧ (REDACTION_CATEGORIES.map (fun c => c.id)).Nodup
    ∧ (∀ id, initialSelectedCategories.has id
        = decide (id ∈ REDACTION_CATEGORIES.map (fun c => c.id)))
    ∧ initialSelectedFields.keys = ["name", "phone", "dob", "address"]
    ∧ (∀ field, fieldChecked initialSelectedFields field = false)
    ∧ allSelected initialSelectedFields = false := by
  have h1 : initialSelectedCategories.toArray = REDACTION_CATEGORIES.map (fun c => c.id) := by
    decide
  refine ⟨h1, by decide, by decide, ?_, by decide, ?_, by decide⟩
  · intro id
    simp only [JSSet.has]
    rw [show initialSelectedCategories.elems = REDACTION_CATEGORIES.map (fun c => c.id) from h1]
  · intro field
    simp only [fieldChecked, JSObj.get, initialSelectedFields, lookup_cons_ite]
    split_ifs <;> rfl

/-! ## Upload, redact, preview: reachable states -/

theorem flagsOk_step (s : ToolState) (e : ToolEvent) (h : s.flagsOk = true) :
    (s.step e).flagsOk = true := by
  cases e with
  | fileUpload files objectUrl =>
    simp only [ToolState.step, handleFileUpload]
    cases files.head? with
    | none => exact h
    | some uploaded => rfl
  | fieldToggle field => exact h
  | selectAll => exact h
  | redact =>
    simp only [ToolState.step, handleRedact]
    cases hf : s.file with
    | none => simpa [hf] using h
    | some f =>
      simp only [ToolState.flagsOk, hf, Bool.and_eq_true, Bool.or_eq_true] at h ⊢
      simp
  | previewRedacted =>
    simp only [ToolState.step, handlePreviewRedacted]
    cases hr : s.redacted with
    | false => simpa [hr] using h
    | true =>
      simp only [ToolState.flagsOk, hr, Bool.and_eq_true, Bool.or_eq_true] at h ⊢
      simpa using h
  | exportRedacted =>
    simp only [ToolState.step, handleExport]
    cases hf : s.file with
    | none => simpa [hf] using h
    | some f => simpa [hf] using h

theorem flagsOk_run (events : List ToolEvent) :
    ∀ s : ToolState, s.flagsOk = true → (s.run events).flagsOk = true := by
  induction events with
  | nil => intro s h; exact h
  | cons e t ih =>
    intro s h
    exact ih (s.step e) (flagsOk_step s e h)

/-- C11: in every state of `RedactionTool` reached from the initial state by
any sequence of `handleFileUpload`, `handleFieldToggle`, `handleSelectAll`,
`handleRedact`, `handlePreviewRedacted` and `handleExport`, `redacted` is true
only if a file is present and `showRedactedPreview` is true only if `redacted`
is; from any state, uploading a file stores it and sets both flags to false,
and with no file `handleRedact` and `handleExport` change nothing and perform
no effect. -/
theorem reachable_flags (events : List ToolEvent) (s : ToolState) (f : File)
    (rest : List File) (objectUrl : String) :
    ((initialToolState.run events).redacted = true → (initialToolState.run events).file ≠ none)
    ∧ ((initialToolState.run events).showRedactedPreview = true →
        (initialToolState.run events).redacted = true)
    ∧ ((handleFileUpload s (f :: rest) objectUrl).file = some f
        ∧ (handleFileUpload s (f :: rest) objectUrl).redacted = false
        ∧ (handleFileUpload s (f :: rest) objectUrl).showRedactedPreview = false)
    ∧ (s.file = none → handleRedact s = (s, []) ∧ handleExport s = (s, [])) := by
  have h := flagsOk_run events initialToolState rfl
  simp only [ToolState.flagsOk, Bool.and_eq_true, Bool.or_eq_true, Bool.not_eq_true'] at h
  refine ⟨?_, ?_, ⟨rfl, rfl, rfl⟩, ?_⟩
  · intro hr
    rcases h.1 with h1 | h1
    · rw [hr] at h1; exact Bool.noConfusion h1
    · intro hn; rw [hn] at h1; exact Bool.noConfusion h1
  · intro hp
    rcases h.2 with h2 | h2
    · rw [hp] at h2; exact Bool.noConfusion h2
    · exact h2
  · intro hf
    simp only [handleRedact, handleExport, hf, and_self]

/-- Witness for C11: after upload, redact and preview both flags are on and
the file is present; in the initial state `handleRedact` does nothing. -/
theorem reachable_flags_witness :
    (initialToolState.run [ToolEvent.fileUpload [⟨"a.pdf", "application/pdf", []⟩] "blob:1",
        ToolEvent.redact, ToolEvent.previewRedacted]).file ≠ none
    ∧ handleRedact initialToolState = (initialToolState, []) :=
  ⟨(reachable_flags [ToolEvent.fileUpload [⟨"a.pdf", "application/pdf", []⟩] "blob:1",
        ToolEvent.redact, ToolEvent.previewRedacted] initialToolState ⟨"", "", []⟩ [] "").1
      (by decide),
    ((reachable_flags [] initialToolState ⟨"", "", []⟩ [] "").2.2.2 rfl).1⟩

end RedactionTool
